import Mathlib

/-!
Shallow embedding of the filtering-and-aggregation pipeline of
`src/app.py` (DBS sentiment dashboard).

Modelling conventions:
* A `MentionRecord` is one row of the sample dataframe built in `load_data`
  (app.py lines 15-35).  String columns stay `String`.
* `polarity` is a float with one decimal digit in [-1.0, 1.0] in the source;
  it is embedded as an `Int` counting tenths (0.8 ↦ 8, -0.7 ↦ -7), which
  preserves all comparisons and equalities the program performs.
* `date` is a calendar day produced by `pd.date_range('2024-06-01', 10, 'D')`;
  it is embedded as the day-of-month `Nat` (1..10) of June 2024, which
  preserves the ordering and equality used by the program.
* The streamlit `date_input` value is a tuple of one or two dates; it is
  embedded as a `List Nat`.  The multiselect values are `List String`.
-/

structure MentionRecord where
  text : String
  sentiment : String
  emotion : String
  source : String
  platform : String
  search_term : String
  polarity : Int
  date : Nat
deriving DecidableEq, Repr

/-- The sample dataframe of `load_data` (app.py lines 15-36), row by row. -/
def load_data : List MentionRecord :=
  [ ⟨"DBS Bank India has excellent customer service and quick loan approval",
      "positive", "happy", "News", "Economic Times", "DBS Bank India", 8, 1⟩,
    ⟨"DBS app crashes too often, very frustrating experience",
      "negative", "angry", "Reddit", "r/india", "DBS app", -7, 2⟩,
    ⟨"DBS net banking interface is user-friendly and secure",
      "positive", "satisfied", "News", "Business Standard", "DBS net banking", 6, 3⟩,
    ⟨"DBS credit card has high interest rates, not recommended",
      "negative", "disappointed", "Reddit", "r/bangalore", "DBS credit card", -5, 4⟩,
    ⟨"DBS mobile banking works smoothly, love the features",
      "positive", "happy", "News", "Financial Express", "DBS mobile banking", 7, 5⟩,
    ⟨"Poor customer support from DBS Bank India branch",
      "negative", "angry", "Reddit", "r/mumbai", "DBS Bank India", -6, 6⟩,
    ⟨"DBS digibank is innovative and convenient for daily banking",
      "positive", "satisfied", "News", "Times of India", "DBS digibank", 8, 7⟩,
    ⟨"DBS loan process is too lengthy and complicated",
      "negative", "disappointed", "Reddit", "r/delhi", "DBS loan", -4, 8⟩,
    ⟨"Great experience with DBS debit card internationally",
      "positive", "happy", "News", "Hindu Business", "DBS debit card", 9, 9⟩,
    ⟨"DBS bank charges are reasonable compared to other banks",
      "neutral", "neutral", "Reddit", "r/india", "DBS Bank India", 1, 10⟩ ]

/-- The sidebar's full list of sources (`df['source'].unique()`). -/
def all_sources : List String := ["News", "Reddit"]

/-- The sidebar's full list of products/keywords (`df['search_term'].unique()`). -/
def all_terms : List String :=
  ["DBS Bank India", "DBS app", "DBS net banking", "DBS credit card",
   "DBS mobile banking", "DBS digibank", "DBS loan", "DBS debit card"]

/-- The Filter Engine, app.py lines 73-84: when the date-range tuple has
exactly two entries, a row passes iff its date lies between them (inclusive)
and its source and search term are among the selected ones; otherwise the
date test is dropped and only source and search term are checked. -/
def filter_records (records : List MentionRecord) (date_range : List Nat)
    (sources terms : List String) : List MentionRecord :=
  match date_range with
  | [s, e] =>
      records.filter (fun r =>
        s ≤ r.date && r.date ≤ e &&
        sources.contains r.source && terms.contains r.search_term)
  | _ =>
      records.filter (fun r =>
        sources.contains r.source && terms.contains r.search_term)

/-- Number of filtered rows with the given sentiment label
(`len(df_filtered[df_filtered['sentiment'] == s])`, app.py lines 94/99/104). -/
def sentiment_count (records : List MentionRecord) (s : String) : Nat :=
  (records.filter (fun r => r.sentiment == s)).length

/-- Percentage shown on a metric card
(`(count / total * 100) if total > 0 else 0`, app.py lines 95/100/105),
computed exactly in `ℚ`. -/
def sentiment_pct (records : List MentionRecord) (s : String) : ℚ :=
  if 0 < records.length
  then (sentiment_count records s : ℚ) / (records.length : ℚ) * 100
  else 0

/-- Total-mentions metric (`len(df_filtered)`, app.py line 90). -/
def total_mentions (records : List MentionRecord) : Nat := records.length

theorem filter_records_two_bounds (records : List MentionRecord) (s e : Nat)
    (sources terms : List String) :
    filter_records records [s, e] sources terms =
      records.filter (fun r =>
        s ≤ r.date && r.date ≤ e &&
        sources.contains r.source && terms.contains r.search_term) := rfl

theorem mem_filter_records (records : List MentionRecord) (s e : Nat)
    (sources terms : List String) (r : MentionRecord) :
    r ∈ filter_records records [s, e] sources terms ↔
      r ∈ records ∧ (s ≤ r.date ∧ r.date ≤ e) ∧
        r.source ∈ sources ∧ r.search_term ∈ terms := by
  simp [filter_records, List.mem_filter, and_assoc]

theorem filter_records_empty_select (records : List MentionRecord)
    (date_range : List Nat) (sources terms : List String)
    (h : sources = [] ∨ terms = []) :
    filter_records records date_range sources terms = [] := by
  unfold filter_records
  match date_range with
  | [s, e] =>
      rw [List.filter_eq_nil_iff]
      intro r _
      rcases h with h | h <;> subst h <;> simp
  | [] =>
      rw [List.filter_eq_nil_iff]
      intro r _
      rcases h with h | h <;> subst h <;> simp
  | [_] =>
      rw [List.filter_eq_nil_iff]
      intro r _
      rcases h with h | h <;> subst h <;> simp
  | _ :: _ :: _ :: _ =>
      rw [List.filter_eq_nil_iff]
      intro r _
      rcases h with h | h <;> subst h <;> simp

/-! ### Top-K selection (app.py lines 188 and 197) -/

/-- Which end of the polarity scale to take from:
`max` models `DataFrame.nlargest`, `min` models `DataFrame.nsmallest`. -/
inductive Direction where
  | max : Direction
  | min : Direction
deriving DecidableEq, Repr

/-- Stable sort of records by ascending integer key (insertion sort is
stable: ties keep their original relative order). -/
def sort_stable_by (key : MentionRecord → Int) (l : List MentionRecord) :
    List MentionRecord :=
  l.insertionSort (fun a b => key a ≤ key b)

/-- `top_k_by_polarity records s k dir` models
`df[df['sentiment'] == s].nlargest(k, 'polarity')` (dir = max) and
`df[df['sentiment'] == s].nsmallest(k, 'polarity')` (dir = min):
restrict to the sentiment, stably sort by polarity (descending for max,
ascending for min), take the first `k` rows. -/
def top_k_by_polarity (records : List MentionRecord) (s : String) (k : Nat)
    (dir : Direction) : List MentionRecord :=
  let q := records.filter (fun r => r.sentiment == s)
  match dir with
  | .max => (sort_stable_by (fun r => -r.polarity) q).take k
  | .min => (sort_stable_by (fun r => r.polarity) q).take k

/-! ### Sparse group-by counts (app.py lines 146 and 166) -/

/-- Lexicographic "≤" on pairs: first component strictly smaller, or equal
first components and second "≤".  This is the key order `pandas.groupby`
sorts by. -/
def lexLe {α β : Type} [LinearOrder α] [LinearOrder β] (a b : α × β) : Prop :=
  a.1 < b.1 ∨ (a.1 = b.1 ∧ a.2 ≤ b.2)

instance lexLe.decidableRel {α β : Type} [LinearOrder α] [LinearOrder β] :
    DecidableRel (lexLe (α := α) (β := β)) := fun a b => by
  unfold lexLe; infer_instance

instance lexLe.isTotal {α β : Type} [LinearOrder α] [LinearOrder β] :
    IsTotal (α × β) lexLe where
  total a b := by
    unfold lexLe
    rcases lt_trichotomy a.1 b.1 with h | h | h
    · exact Or.inl (Or.inl h)
    · rcases le_total a.2 b.2 with h2 | h2
      · exact Or.inl (Or.inr ⟨h, h2⟩)
      · exact Or.inr (Or.inr ⟨h.symm, h2⟩)
    · exact Or.inr (Or.inl h)

instance lexLe.isTrans {α β : Type} [LinearOrder α] [LinearOrder β] :
    IsTrans (α × β) lexLe where
  trans a b c hab hbc := by
    unfold lexLe at *
    rcases hab with h1 | ⟨h1, h1'⟩ <;> rcases hbc with h2 | ⟨h2, h2'⟩
    · exact Or.inl (h1.trans h2)
    · exact Or.inl (h2 ▸ h1)
    · exact Or.inl (h1 ▸ h2)
    · exact Or.inr ⟨h1.trans h2, h1'.trans h2'⟩

/-- `groupby(keys).size()` over a list of key pairs: one row per distinct
key present, sorted ascending in the lexicographic order, each with its
number of occurrences. -/
def group_pairs {α β : Type} [LinearOrder α] [LinearOrder β] [DecidableEq α]
    [DecidableEq β] (keys : List (α × β)) : List ((α × β) × Nat) :=
  (keys.dedup.insertionSort lexLe).map (fun k => (k, keys.count k))

/-- `df_filtered.groupby([date, 'sentiment']).size().reset_index(name='count')`
(app.py line 146). -/
def group_by_date_and_sentiment (records : List MentionRecord) :
    List ((Nat × String) × Nat) :=
  group_pairs (records.map (fun r => (r.date, r.sentiment)))

/-- `df_filtered.groupby(['search_term', 'sentiment']).size().reset_index(name='count')`
(app.py line 166). -/
def group_by_term_and_sentiment (records : List MentionRecord) :
    List ((String × String) × Nat) :=
  group_pairs (records.map (fun r => (r.search_term, r.sentiment)))

/-! ### Helper lemmas: Filter Engine -/

theorem filter_records_sublist (records : List MentionRecord)
    (date_range : List Nat) (sources terms : List String) :
    (filter_records records date_range sources terms).Sublist records := by
  unfold filter_records
  rcases date_range with _ | ⟨a, _ | ⟨b, _ | ⟨c, tl⟩⟩⟩ <;>
    exact List.filter_sublist _

theorem mem_of_mem_filter_records {records : List MentionRecord}
    {date_range : List Nat} {sources terms : List String} {r : MentionRecord}
    (h : r ∈ filter_records records date_range sources terms) : r ∈ records :=
  (filter_records_sublist records date_range sources terms).mem h

/-! ### Helper lemmas: sentiment counts and percentages -/

/-- A record set is sentiment-wellformed when every record carries one of the
three sentiment labels of the data model. -/
def sentiments_wf (records : List MentionRecord) : Prop :=
  ∀ r ∈ records, r.sentiment = "positive" ∨ r.sentiment = "negative" ∨
    r.sentiment = "neutral"

instance sentiments_wf.dec (records : List MentionRecord) :
    Decidable (sentiments_wf records) := by
  unfold sentiments_wf; infer_instance

theorem sum_three_counts (records : List MentionRecord)
    (h : sentiments_wf records) :
    sentiment_count records "positive" + sentiment_count records "negative" +
      sentiment_count records "neutral" = records.length := by
  induction records with
  | nil => rfl
  | cons a l ih =>
      have ha := h a (List.mem_cons_self a l)
      have ih' := ih (fun r hr => h r (List.mem_cons_of_mem a hr))
      simp only [sentiment_count, List.filter_cons, List.length_cons] at *
      rcases ha with h1 | h1 | h1 <;> simp [h1] <;> omega

theorem sum_three_pcts (records : List MentionRecord) (hpos : 0 < records.length)
    (h : sentiments_wf records) :
    sentiment_pct records "positive" + sentiment_pct records "negative" +
      sentiment_pct records "neutral" = 100 := by
  have hsum := sum_three_counts records h
  have h0 : (records.length : ℚ) ≠ 0 := by
    exact_mod_cast Nat.pos_iff_ne_zero.mp hpos
  have hq : (sentiment_count records "positive" : ℚ) +
      (sentiment_count records "negative" : ℚ) +
      (sentiment_count records "neutral" : ℚ) = (records.length : ℚ) := by
    exact_mod_cast hsum
  simp only [sentiment_pct, if_pos hpos]
  field_simp
  linarith

/-! ### Helper lemmas: stable sort by an integer key -/

theorem sort_stable_by_perm (key : MentionRecord → Int) (l : List MentionRecord) :
    (sort_stable_by key l).Perm l :=
  List.perm_insertionSort _ l

theorem sort_stable_by_sorted (key : MentionRecord → Int) (l : List MentionRecord) :
    List.Sorted (fun a b => key a ≤ key b) (sort_stable_by key l) := by
  haveI : IsTotal MentionRecord (fun a b => key a ≤ key b) := ⟨fun a b => le_total _ _⟩
  haveI : IsTrans MentionRecord (fun a b => key a ≤ key b) :=
    ⟨fun a b c hab hbc => le_trans hab hbc⟩
  exact List.sorted_insertionSort _ l

theorem orderedInsert_filter_ne (key : MentionRecord → Int) (a : MentionRecord)
    (p : Int) (hne : key a ≠ p) (m : List MentionRecord) :
    (m.orderedInsert (fun x y => key x ≤ key y) a).filter (fun r => key r == p) =
      m.filter (fun r => key r == p) := by
  induction m with
  | nil => simp [hne]
  | cons b m ih =>
      by_cases hab : key a ≤ key b
      · simp [List.orderedInsert, if_pos hab, List.filter_cons, hne]
      · simp [List.orderedInsert, if_neg hab, List.filter_cons, ih]

theorem orderedInsert_filter_eq (key : MentionRecord → Int) (a : MentionRecord)
    (m : List MentionRecord) :
    (m.orderedInsert (fun x y => key x ≤ key y) a).filter (fun r => key r == key a) =
      a :: m.filter (fun r => key r == key a) := by
  induction m with
  | nil => simp
  | cons b m ih =>
      by_cases hab : key a ≤ key b
      · simp [List.orderedInsert, if_pos hab, List.filter_cons]
      · have hb : (key b == key a) = false := by
          simp only [beq_eq_false_iff_ne, ne_eq]
          intro he
          exact hab (le_of_eq he.symm)
        simp [List.orderedInsert, if_neg hab, List.filter_cons, hb, ih]

theorem sort_stable_by_filter (key : MentionRecord → Int) (p : Int)
    (l : List MentionRecord) :
    (sort_stable_by key l).filter (fun r => key r == p) =
      l.filter (fun r => key r == p) := by
  induction l with
  | nil => rfl
  | cons a l ih =>
      show ((sort_stable_by key l).orderedInsert (fun x y => key x ≤ key y) a).filter
            (fun r => key r == p) = _
      by_cases hap : key a = p
      · subst hap
        rw [orderedInsert_filter_eq key a (sort_stable_by key l), ih]
        simp [List.filter_cons]
      · rw [orderedInsert_filter_ne key a p hap (sort_stable_by key l), ih]
        simp [List.filter_cons, hap]

theorem take_sort_length (key : MentionRecord → Int) (k : Nat)
    (l : List MentionRecord) :
    ((sort_stable_by key l).take k).length = min k l.length := by
  rw [List.length_take, (sort_stable_by_perm key l).length_eq]

theorem mem_of_mem_take_sort {key : MentionRecord → Int} {k : Nat}
    {l : List MentionRecord} {r : MentionRecord}
    (h : r ∈ (sort_stable_by key l).take k) : r ∈ l :=
  (sort_stable_by_perm key l).mem_iff.mp (List.take_subset k _ h)

theorem take_sort_sorted (key : MentionRecord → Int) (k : Nat)
    (l : List MentionRecord) :
    List.Sorted (fun a b => key a ≤ key b) ((sort_stable_by key l).take k) :=
  (sort_stable_by_sorted key l).sublist (List.take_sublist k _)

theorem take_sort_filter_sublist (key : MentionRecord → Int) (k : Nat)
    (p : Int) (l : List MentionRecord) :
    (((sort_stable_by key l).take k).filter (fun r => key r == p)).Sublist
      (l.filter (fun r => key r == p)) := by
  rw [← sort_stable_by_filter key p l]
  exact (List.take_sublist k _).filter _

theorem take_sort_all (key : MentionRecord → Int) (k : Nat)
    (l : List MentionRecord) (h : l.length ≤ k) :
    ((sort_stable_by key l).take k).Perm l := by
  rw [List.take_of_length_le (by rw [(sort_stable_by_perm key l).length_eq]; exact h)]
  exact sort_stable_by_perm key l

theorem take_sort_extremal (key : MentionRecord → Int) (k : Nat)
    (l : List MentionRecord) :
    (((sort_stable_by key l).take k) ++ ((sort_stable_by key l).drop k)).Perm l ∧
    ∀ a ∈ (sort_stable_by key l).take k, ∀ b ∈ (sort_stable_by key l).drop k,
      key a ≤ key b := by
  constructor
  · rw [List.take_append_drop]
    exact sort_stable_by_perm key l
  · have hs : List.Pairwise (fun a b => key a ≤ key b)
        ((sort_stable_by key l).take k ++ (sort_stable_by key l).drop k) := by
      rw [List.take_append_drop]
      exact sort_stable_by_sorted key l
    exact (List.pairwise_append.mp hs).2.2

/-! ### Helper lemmas: summing counts over the distinct keys -/

theorem list_sum_map_add {γ : Type} (d : List γ) (f g : γ → Nat) :
    (d.map fun x => f x + g x).sum = (d.map f).sum + (d.map g).sum := by
  induction d with
  | nil => rfl
  | cons a d ih =>
      simp only [List.map_cons, List.sum_cons, ih]
      omega

theorem indicator_sum_zero {γ : Type} [BEq γ] [LawfulBEq γ] (d : List γ) (a : γ)
    (ha : a ∉ d) : (d.map fun x => if a == x then 1 else 0).sum = 0 := by
  induction d with
  | nil => rfl
  | cons b d ih =>
      simp only [List.mem_cons, not_or] at ha
      have hb : (a == b) = false := beq_eq_false_iff_ne.mpr ha.1
      simp only [List.map_cons, List.sum_cons, hb, ih ha.2]
      simp

theorem indicator_sum_one {γ : Type} [BEq γ] [LawfulBEq γ] (d : List γ) (a : γ)
    (hd : d.Nodup) (ha : a ∈ d) :
    (d.map fun x => if a == x then 1 else 0).sum = 1 := by
  induction d with
  | nil => cases ha
  | cons b d ih =>
      have hnd := List.nodup_cons.mp hd
      rcases List.mem_cons.mp ha with h | h
      · subst h
        simp only [List.map_cons, List.sum_cons, beq_self_eq_true, if_true,
          indicator_sum_zero d a hnd.1]
      · have hb : (a == b) = false :=
          beq_eq_false_iff_ne.mpr (fun he => hnd.1 (he ▸ h))
        simp only [List.map_cons, List.sum_cons, hb, ih hnd.2 h]
        simp

theorem sum_map_count_of_nodup {γ : Type} [BEq γ] [LawfulBEq γ]
    (l d : List γ) (hd : d.Nodup) (hsub : ∀ x ∈ l, x ∈ d) :
    (d.map fun x => l.count x).sum = l.length := by
  induction l with
  | nil => simp
  | cons a l' ih =>
      have ha : a ∈ d := hsub a (List.mem_cons_self a l')
      have hsub' : ∀ x ∈ l', x ∈ d :=
        fun x hx => hsub x (List.mem_cons_of_mem a hx)
      have h1 : (d.map fun x => (a :: l').count x).sum =
          (d.map fun x => l'.count x + if a == x then 1 else 0).sum := by
        simp only [List.count_cons]
      rw [h1, list_sum_map_add, ih hsub', indicator_sum_one d a hd ha,
        List.length_cons]

theorem group_pairs_fst {α β : Type} [LinearOrder α] [LinearOrder β]
    [DecidableEq α] [DecidableEq β] (keys : List (α × β)) :
    (group_pairs keys).map Prod.fst = keys.dedup.insertionSort lexLe := by
  simp [group_pairs, List.map_map, Function.comp_def]

theorem group_pairs_spec {α β : Type} [LinearOrder α] [LinearOrder β]
    [DecidableEq α] [DecidableEq β] (keys : List (α × β)) :
    ((group_pairs keys).map Prod.fst).Nodup ∧
    List.Sorted lexLe ((group_pairs keys).map Prod.fst) ∧
    (∀ k : α × β, k ∈ (group_pairs keys).map Prod.fst ↔ k ∈ keys) ∧
    (∀ row ∈ group_pairs keys, row.2 = keys.count row.1 ∧ 0 < row.2) ∧
    ((group_pairs keys).map Prod.snd).sum = keys.length := by
  have hperm : (keys.dedup.insertionSort lexLe).Perm keys.dedup :=
    List.perm_insertionSort _ _
  have hnodup : (keys.dedup.insertionSort lexLe).Nodup :=
    hperm.nodup_iff.mpr keys.nodup_dedup
  refine ⟨?_, ?_, ?_, ?_, ?_⟩
  · rw [group_pairs_fst]
    exact hnodup
  · rw [group_pairs_fst]
    exact List.sorted_insertionSort lexLe _
  · intro k
    rw [group_pairs_fst, hperm.mem_iff, List.mem_dedup]
  · intro row hrow
    obtain ⟨k, hk, hrow⟩ := List.mem_map.mp hrow
    have hkmem : k ∈ keys := List.mem_dedup.mp (hperm.mem_iff.mp hk)
    rw [← hrow]
    exact ⟨rfl, List.count_pos_iff.mpr hkmem⟩
  · have hsnd : (group_pairs keys).map Prod.snd =
        (keys.dedup.insertionSort lexLe).map (fun k => keys.count k) := by
      simp [group_pairs, List.map_map, Function.comp_def]
    rw [hsnd]
    exact sum_map_count_of_nodup keys _ hnodup
      (fun x hx => hperm.mem_iff.mpr (List.mem_dedup.mpr hx))

/-! ### Claim theorems -/

/-- C1: the Filter Engine passes a record iff its date lies within the
inclusive bounds (when both bounds are given) and its source and search
term are among the selected ones; selecting no source or no term filters
everything out (empty multi-select means "no records pass"). -/
theorem filter_engine_pass_iff :
    (∀ (records : List MentionRecord) (s e : Nat) (sources terms : List String)
        (r : MentionRecord),
      r ∈ filter_records records [s, e] sources terms ↔
        r ∈ records ∧ (s ≤ r.date ∧ r.date ≤ e) ∧
          r.source ∈ sources ∧ r.search_term ∈ terms) ∧
    (∀ (records : List MentionRecord) (date_range : List Nat)
        (sources terms : List String),
      sources = [] ∨ terms = [] →
        filter_records records date_range sources terms = []) :=
  ⟨mem_filter_records, filter_records_empty_select⟩

/-- Witness for C1: with an empty source selection nothing passes, and on
the sample data the first record passes the full filter. -/
theorem filter_engine_pass_iff_witness :
    filter_records load_data [1, 10] [] all_terms = [] ∧
    filter_records load_data [1, 10] all_sources [] = [] :=
  ⟨filter_engine_pass_iff.2 load_data [1, 10] [] all_terms (Or.inl rfl),
   filter_engine_pass_iff.2 load_data [1, 10] all_sources [] (Or.inr rfl)⟩

/-- C6: when the date-range tuple does not have exactly two entries
(malformed/partial range), the date predicate is skipped entirely and the
engine filters only by allowed sources and terms. -/
theorem filter_skips_date_when_partial (records : List MentionRecord)
    (date_range : List Nat) (sources terms : List String)
    (h : date_range.length ≠ 2) :
    filter_records records date_range sources terms =
      records.filter (fun r =>
        sources.contains r.source && terms.contains r.search_term) := by
  unfold filter_records
  rcases date_range with _ | ⟨a, _ | ⟨b, _ | ⟨c, tl⟩⟩⟩
  · rfl
  · rfl
  · exact absurd rfl h
  · rfl

/-- Witness for C6: a one-element date range on the sample data. -/
theorem filter_skips_date_when_partial_witness :
    filter_records load_data [3] all_sources all_terms =
      load_data.filter (fun r =>
        all_sources.contains r.source && all_terms.contains r.search_term) :=
  filter_skips_date_when_partial load_data [3] all_sources all_terms (by decide)

/-- C8: the Filter Engine's output is a subsequence of its input (original
relative order and values kept), its length never exceeds the input length,
and an empty input yields an empty output. -/
theorem filter_output_subsequence (records : List MentionRecord)
    (date_range : List Nat) (sources terms : List String) :
    (filter_records records date_range sources terms).Sublist records ∧
    (filter_records records date_range sources terms).length ≤ records.length ∧
    (records = [] → filter_records records date_range sources terms = []) := by
  refine ⟨filter_records_sublist records date_range sources terms,
    (filter_records_sublist records date_range sources terms).length_le, ?_⟩
  intro h
  subst h
  exact List.sublist_nil.mp (filter_records_sublist [] date_range sources terms)

/-- Witness for C8: empty input yields empty output. -/
theorem filter_output_subsequence_witness :
    filter_records [] [1, 10] all_sources all_terms = [] :=
  (filter_output_subsequence [] [1, 10] all_sources all_terms).2.2 rfl

/-- C3: each metric card shows `count` and `count / total * 100`; with zero
records every count and every percentage is 0 (no NaN, no exception); with a
positive total the three percentages sum to exactly 100 for sentiment-wellformed
records. -/
theorem count_by_sentiment_spec (records : List MentionRecord) :
    (∀ s : String, sentiment_pct records s =
      if 0 < records.length
      then (sentiment_count records s : ℚ) / (records.length : ℚ) * 100
      else 0) ∧
    (records.length = 0 →
      sentiment_count records "positive" = 0 ∧
      sentiment_count records "negative" = 0 ∧
      sentiment_count records "neutral" = 0 ∧
      sentiment_pct records "positive" = 0 ∧
      sentiment_pct records "negative" = 0 ∧
      sentiment_pct records "neutral" = 0) ∧
    (0 < records.length → sentiments_wf records →
      sentiment_pct records "positive" + sentiment_pct records "negative" +
        sentiment_pct records "neutral" = 100) := by
  refine ⟨fun s => rfl, ?_, fun h hwf => sum_three_pcts records h hwf⟩
  intro h0
  have h : records = [] := List.length_eq_zero.mp h0
  subst h
  exact ⟨rfl, rfl, rfl, rfl, rfl, rfl⟩

/-- Witness for C3: on the 10-record sample the percentages sum to 100, and
on the empty list the positive percentage is 0. -/
theorem count_by_sentiment_spec_witness :
    sentiment_pct load_data "positive" + sentiment_pct load_data "negative" +
      sentiment_pct load_data "neutral" = 100 ∧
    sentiment_pct [] "positive" = 0 :=
  ⟨(count_by_sentiment_spec load_data).2.2 (by decide) (by decide),
   ((count_by_sentiment_spec []).2.1 rfl).2.2.2.1⟩

/-- C10: every loaded record carries one of the three sentiment labels, so
for every filter selection the positive, negative and neutral counts of the
filtered view add up to its total number of records. -/
theorem metric_cards_consistent :
    sentiments_wf load_data ∧
    ∀ (date_range : List Nat) (sources terms : List String),
      sentiment_count (filter_records load_data date_range sources terms)
          "positive" +
        sentiment_count (filter_records load_data date_range sources terms)
          "negative" +
        sentiment_count (filter_records load_data date_range sources terms)
          "neutral" =
        total_mentions (filter_records load_data date_range sources terms) := by
  have hwf : sentiments_wf load_data := by decide
  refine ⟨hwf, fun date_range sources terms => ?_⟩
  exact sum_three_counts _ (fun r hr => hwf r (mem_of_mem_filter_records hr))

/-- Witness for C10: the four metric cards agree on the unfiltered sample. -/
theorem metric_cards_consistent_witness :
    sentiment_count (filter_records load_data [] all_sources all_terms)
        "positive" +
      sentiment_count (filter_records load_data [] all_sources all_terms)
        "negative" +
      sentiment_count (filter_records load_data [] all_sources all_terms)
        "neutral" =
      total_mentions (filter_records load_data [] all_sources all_terms) :=
  metric_cards_consistent.2 [] all_sources all_terms

/-- C2: `top_k_by_polarity` keeps only records of the given sentiment,
returns `min k count` of them, sorted by descending polarity for
direction max and ascending polarity for direction min, ties keeping their
original relative order (for every polarity value, the output's records
with that polarity form a subsequence of the qualifying records with that
polarity); the returned records are the `k` extremal ones: the qualifying
records split into the output plus a rest whose polarities are all at most
(direction max) resp. at least (direction min) every output polarity; and
all qualifying records are returned (a permutation of them) when at most
`k` qualify. -/
theorem top_k_by_polarity_spec (records : List MentionRecord) (s : String)
    (k : Nat) :
    ((top_k_by_polarity records s k .max).length =
        min k (records.filter (fun r => r.sentiment == s)).length ∧
      (∀ r ∈ top_k_by_polarity records s k .max, r.sentiment = s) ∧
      List.Sorted (fun a b => b.polarity ≤ a.polarity)
        (top_k_by_polarity records s k .max) ∧
      (∀ p : Int,
        ((top_k_by_polarity records s k .max).filter
            (fun r => r.polarity == p)).Sublist
          ((records.filter (fun r => r.sentiment == s)).filter
            (fun r => r.polarity == p))) ∧
      (∃ rest : List MentionRecord,
        ((top_k_by_polarity records s k .max) ++ rest).Perm
          (records.filter (fun r => r.sentiment == s)) ∧
        ∀ a ∈ top_k_by_polarity records s k .max, ∀ b ∈ rest,
          b.polarity ≤ a.polarity) ∧
      ((records.filter (fun r => r.sentiment == s)).length ≤ k →
        (top_k_by_polarity records s k .max).Perm
          (records.filter (fun r => r.sentiment == s)))) ∧
    ((top_k_by_polarity records s k .min).length =
        min k (records.filter (fun r => r.sentiment == s)).length ∧
      (∀ r ∈ top_k_by_polarity records s k .min, r.sentiment = s) ∧
      List.Sorted (fun a b => a.polarity ≤ b.polarity)
        (top_k_by_polarity records s k .min) ∧
      (∀ p : Int,
        ((top_k_by_polarity records s k .min).filter
            (fun r => r.polarity == p)).Sublist
          ((records.filter (fun r => r.sentiment == s)).filter
            (fun r => r.polarity == p))) ∧
      (∃ rest : List MentionRecord,
        ((top_k_by_polarity records s k .min) ++ rest).Perm
          (records.filter (fun r => r.sentiment == s)) ∧
        ∀ a ∈ top_k_by_polarity records s k .min, ∀ b ∈ rest,
          a.polarity ≤ b.polarity) ∧
      ((records.filter (fun r => r.sentiment == s)).length ≤ k →
        (top_k_by_polarity records s k .min).Perm
          (records.filter (fun r => r.sentiment == s)))) := by
  simp only [top_k_by_polarity]
  constructor
  · refine ⟨take_sort_length _ k _, ?_, ?_, ?_, ?_,
      fun h => take_sort_all _ k _ h⟩
    · intro r hr
      exact eq_of_beq (List.mem_filter.mp (mem_of_mem_take_sort hr)).2
    · exact (take_sort_sorted (fun r => -r.polarity) k _).imp
        (fun h => neg_le_neg_iff.mp h)
    · intro p
      have e1 : ∀ m : List MentionRecord,
          m.filter (fun r => r.polarity == p) =
            m.filter (fun r => -r.polarity == -p) := by
        intro m
        refine List.filter_congr (fun x _ => ?_)
        by_cases h : x.polarity = p
        · simp [h]
        · have h2 : ¬(-x.polarity = -p) := fun hc => h (neg_inj.mp hc)
          simp [beq_eq_false_iff_ne, h, h2]
      rw [e1, e1]
      exact take_sort_filter_sublist (fun r => -r.polarity) k (-p) _
    · exact ⟨(sort_stable_by (fun r => -r.polarity)
          (records.filter (fun r => r.sentiment == s))).drop k,
        (take_sort_extremal (fun r => -r.polarity) k _).1,
        fun a ha b hb => neg_le_neg_iff.mp
          ((take_sort_extremal (fun r => -r.polarity) k _).2 a ha b hb)⟩
  · refine ⟨take_sort_length _ k _, ?_, ?_, ?_, ?_,
      fun h => take_sort_all _ k _ h⟩
    · intro r hr
      exact eq_of_beq (List.mem_filter.mp (mem_of_mem_take_sort hr)).2
    · exact take_sort_sorted (fun r => r.polarity) k _
    · intro p
      exact take_sort_filter_sublist (fun r => r.polarity) k p _
    · exact ⟨(sort_stable_by (fun r => r.polarity)
          (records.filter (fun r => r.sentiment == s))).drop k,
        (take_sort_extremal (fun r => r.polarity) k _).1,
        (take_sort_extremal (fun r => r.polarity) k _).2⟩

/-- Witness for C2: with `k = 10` all five positive sample records qualify
and are returned (as a permutation of the positive rows). -/
theorem top_k_by_polarity_spec_witness :
    (top_k_by_polarity load_data "positive" 10 .max).Perm
      (load_data.filter (fun r => r.sentiment == "positive")) :=
  (top_k_by_polarity_spec load_data "positive" 10).1.2.2.2.2.2 (by decide)

/-- C7: on the full sample dataset, the top-3 negative selection
(`nsmallest(3, 'polarity')`) returns exactly the records with polarity
-0.7, -0.6 and -0.5 (in tenths: -7, -6, -5), most negative first. -/
theorem top3_negative_sample :
    top_k_by_polarity load_data "negative" 3 .min =
      [ ⟨"DBS app crashes too often, very frustrating experience",
          "negative", "angry", "Reddit", "r/india", "DBS app", -7, 2⟩,
        ⟨"Poor customer support from DBS Bank India branch",
          "negative", "angry", "Reddit", "r/mumbai", "DBS Bank India", -6, 6⟩,
        ⟨"DBS credit card has high interest rates, not recommended",
          "negative", "disappointed", "Reddit", "r/bangalore",
          "DBS credit card", -5, 4⟩ ] ∧
    (top_k_by_polarity load_data "negative" 3 .min).map
        (fun r => r.polarity) = [-7, -6, -5] := by
  constructor <;> rfl

/-- C4: both sparse group-bys emit exactly one row per distinct key pair
present (no zero-filled rows), sorted ascending by primary key then by
sentiment lexically, every emitted count is positive, and the counts sum to
the number of filtered records. -/
theorem group_by_spec (records : List MentionRecord) :
    (((group_by_date_and_sentiment records).map Prod.fst).Nodup ∧
      List.Sorted lexLe ((group_by_date_and_sentiment records).map Prod.fst) ∧
      (∀ k : Nat × String,
        k ∈ (group_by_date_and_sentiment records).map Prod.fst ↔
          k ∈ records.map (fun r => (r.date, r.sentiment))) ∧
      (∀ row ∈ group_by_date_and_sentiment records, 0 < row.2) ∧
      ((group_by_date_and_sentiment records).map Prod.snd).sum =
        records.length) ∧
    (((group_by_term_and_sentiment records).map Prod.fst).Nodup ∧
      List.Sorted lexLe ((group_by_term_and_sentiment records).map Prod.fst) ∧
      (∀ k : String × String,
        k ∈ (group_by_term_and_sentiment records).map Prod.fst ↔
          k ∈ records.map (fun r => (r.search_term, r.sentiment))) ∧
      (∀ row ∈ group_by_term_and_sentiment records, 0 < row.2) ∧
      ((group_by_term_and_sentiment records).map Prod.snd).sum =
        records.length) := by
  unfold group_by_date_and_sentiment group_by_term_and_sentiment
  have h1 := group_pairs_spec (records.map (fun r => (r.date, r.sentiment)))
  have h2 := group_pairs_spec (records.map (fun r => (r.search_term, r.sentiment)))
  refine ⟨⟨h1.1, h1.2.1, h1.2.2.1,
      fun row hrow => (h1.2.2.2.1 row hrow).2, ?_⟩,
    ⟨h2.1, h2.2.1, h2.2.2.1,
      fun row hrow => (h2.2.2.2.1 row hrow).2, ?_⟩⟩
  · rw [h1.2.2.2.2, List.length_map]
  · rw [h2.2.2.2.2, List.length_map]

/-- Witness for C4: on the sample data the date-sentiment row for
2024-06-01/positive is emitted with positive count, and all counts sum to
the record total. -/
theorem group_by_spec_witness :
    (0 < (((1 : Nat), "positive"), (1 : Nat)).2) ∧
    ((group_by_date_and_sentiment load_data).map Prod.snd).sum =
      load_data.length :=
  ⟨(group_by_spec load_data).1.2.2.2.1 ((1, "positive"), 1) (by decide),
   (group_by_spec load_data).1.2.2.2.2⟩

/-- C5 counterexample: the claim says filtering the sample to
`sources = {Reddit}` (full date range, all terms) yields exactly 4 records
with neutral count 0; the code yields 5 Reddit records, one of them
neutral (the 2024-06-10 'DBS Bank India' row with polarity 0.1). -/
theorem reddit_filter_counterexample :
    ¬((filter_records load_data [1, 10] ["Reddit"] all_terms).length = 4 ∧
      sentiment_count (filter_records load_data [1, 10] ["Reddit"] all_terms)
        "neutral" = 0) := by
  decide

/-- C5 amended: filtering the sample to `sources = {Reddit}` with the full
date range and all search terms yields exactly the 5 records with source
Reddit (the rows for 'DBS app', 'DBS credit card', 'DBS Bank India' (angry),
'DBS loan', and the neutral 'DBS Bank India' row), with sentiment counts
negative 4, neutral 1 and positive 0. -/
theorem reddit_filter_sample :
    filter_records load_data [1, 10] ["Reddit"] all_terms =
      [ ⟨"DBS app crashes too often, very frustrating experience",
          "negative", "angry", "Reddit", "r/india", "DBS app", -7, 2⟩,
        ⟨"DBS credit card has high interest rates, not recommended",
          "negative", "disappointed", "Reddit", "r/bangalore",
          "DBS credit card", -5, 4⟩,
        ⟨"Poor customer support from DBS Bank India branch",
          "negative", "angry", "Reddit", "r/mumbai", "DBS Bank India", -6, 6⟩,
        ⟨"DBS loan process is too lengthy and complicated",
          "negative", "disappointed", "Reddit", "r/delhi", "DBS loan", -4, 8⟩,
        ⟨"DBS bank charges are reasonable compared to other banks",
          "neutral", "neutral", "Reddit", "r/india", "DBS Bank India", 1, 10⟩ ] ∧
    sentiment_count (filter_records load_data [1, 10] ["Reddit"] all_terms)
      "negative" = 4 ∧
    sentiment_count (filter_records load_data [1, 10] ["Reddit"] all_terms)
      "neutral" = 1 ∧
    sentiment_count (filter_records load_data [1, 10] ["Reddit"] all_terms)
      "positive" = 0 := by
  refine ⟨rfl, rfl, rfl, rfl⟩

/-! ### CSV export and re-parsing (app.py lines 229-236)

`df_filtered.to_csv(index=False)` writes a header row and one line per
record, fields comma-separated, each line terminated by a newline; fields
containing a comma, quote or newline are double-quoted with embedded
quotes doubled (the csv conventions pandas follows).  Characters are
modelled as `List Char`; the numeric columns are rendered the way pandas
prints them (one decimal digit of polarity, ISO date). -/

def digit_char (n : Nat) : Char :=
  "0123456789".data.getD n '9'

def digit_val (c : Char) : Option Nat :=
  if c = '0' then some 0
  else if c = '1' then some 1
  else if c = '2' then some 2
  else if c = '3' then some 3
  else if c = '4' then some 4
  else if c = '5' then some 5
  else if c = '6' then some 6
  else if c = '7' then some 7
  else if c = '8' then some 8
  else if c = '9' then some 9
  else none

/-- The decimal rendering of a tenths polarity, e.g. `8 ↦ "0.8"`,
`-7 ↦ "-0.7"`, `10 ↦ "1.0"`. -/
def render_polarity (p : Int) : List Char :=
  (if p < 0 then ['-'] else []) ++
    [digit_char (p.natAbs / 10), '.', digit_char (p.natAbs % 10)]

def parse_polarity (cs : List Char) : Option Int :=
  match cs with
  | '-' :: d1 :: '.' :: d2 :: [] => do
      let a ← digit_val d1
      let b ← digit_val d2
      some (-(a * 10 + b : Int))
  | d1 :: '.' :: d2 :: [] => do
      let a ← digit_val d1
      let b ← digit_val d2
      some ((a * 10 + b : Int))
  | _ => none

/-- The ISO rendering of a June 2024 day, e.g. `3 ↦ "2024-06-03"`. -/
def render_date (d : Nat) : List Char :=
  '2' :: '0' :: '2' :: '4' :: '-' :: '0' :: '6' :: '-' ::
    [digit_char (d / 10), digit_char (d % 10)]

def parse_date (cs : List Char) : Option Nat :=
  match cs with
  | '2' :: '0' :: '2' :: '4' :: '-' :: '0' :: '6' :: '-' :: d1 :: d2 :: [] => do
      let a ← digit_val d1
      let b ← digit_val d2
      some (a * 10 + b)
  | _ => none

/-- The CSV cells of one record, in the dataframe's column order. -/
def fields_of (r : MentionRecord) : List (List Char) :=
  [r.text.data, r.sentiment.data, r.emotion.data, r.source.data,
   r.platform.data, r.search_term.data,
   render_polarity r.polarity, render_date r.date]

def record_of_fields (fs : List (List Char)) : Option MentionRecord :=
  match fs with
  | [t, s, e, so, pl, st, po, d] => do
      let p ← parse_polarity po
      let dd ← parse_date d
      some ⟨String.mk t, String.mk s, String.mk e, String.mk so,
        String.mk pl, String.mk st, p, dd⟩
  | _ => none

def needs_quote (f : List Char) : Bool :=
  f.contains ',' || f.contains '"' || f.contains '\n'

def escape_field (f : List Char) : List Char :=
  f.flatMap (fun c => if c = '"' then ['"', '"'] else [c])

def render_field (f : List Char) : List Char :=
  if needs_quote f then '"' :: escape_field f ++ ['"'] else f

def join_comma : List (List Char) → List Char
  | [] => []
  | [f] => f
  | f :: fs => f ++ ',' :: join_comma fs

def render_row (fs : List (List Char)) : List Char :=
  join_comma (fs.map render_field)

def csv_header : List Char :=
  "text,sentiment,emotion,source,platform,search_term,polarity,date".data

/-- `df_filtered.to_csv(index=False)` (app.py line 230): header line plus
one rendered row per record, each line newline-terminated. -/
def to_csv (records : List MentionRecord) : List Char :=
  (csv_header :: records.map (fun r => render_row (fields_of r))).flatMap
    (fun l => l ++ ['\n'])

mutual

/-- Field splitter for one CSV line, outside quotes. -/
def split_unq : List Char → List Char → List (List Char)
  | [], acc => [acc.reverse]
  | c :: rest, acc =>
      if c = ',' then acc.reverse :: split_unq rest []
      else if c = '"' then split_q rest acc
      else split_unq rest (c :: acc)
termination_by s _ => s.length

/-- Field splitter for one CSV line, inside a quoted cell. -/
def split_q : List Char → List Char → List (List Char)
  | [], acc => [acc.reverse]
  | c :: rest, acc =>
      if c = '"' then
        match rest with
        | [] => split_unq [] acc
        | c2 :: rest2 =>
            if c2 = '"' then split_q rest2 ('"' :: acc)
            else split_unq (c2 :: rest2) acc
      else split_q rest (c :: acc)
termination_by s _ => s.length

end

def parse_row (s : List Char) : List (List Char) :=
  split_unq s []

def split_nl_aux : List Char → List Char → List (List Char)
  | [], acc => [acc.reverse]
  | c :: rest, acc =>
      if c = '\n' then acc.reverse :: split_nl_aux rest []
      else split_nl_aux rest (c :: acc)

/-- Re-parse an exported CSV text: split into lines, check the header,
drop the trailing empty line, parse every row back into a record. -/
def parse_csv (s : List Char) : Option (List MentionRecord) :=
  match split_nl_aux s [] with
  | [] => none
  | header :: rest =>
      if header = csv_header then
        if rest.getLast? = some ([] : List Char) then
          rest.dropLast.mapM (fun line => record_of_fields (parse_row line))
        else none
      else none

/-- Well-formedness domain for the CSV round trip: no double quote and no
newline in any string cell (true of the sample data, which does contain
commas), polarity within [-1.0, 1.0] in tenths, date a two-digit day. -/
def record_wf (r : MentionRecord) : Prop :=
  (∀ c ∈ r.text.data, ¬c = '"' ∧ ¬c = '\n') ∧
  (∀ c ∈ r.sentiment.data, ¬c = '"' ∧ ¬c = '\n') ∧
  (∀ c ∈ r.emotion.data, ¬c = '"' ∧ ¬c = '\n') ∧
  (∀ c ∈ r.source.data, ¬c = '"' ∧ ¬c = '\n') ∧
  (∀ c ∈ r.platform.data, ¬c = '"' ∧ ¬c = '\n') ∧
  (∀ c ∈ r.search_term.data, ¬c = '"' ∧ ¬c = '\n') ∧
  -10 ≤ r.polarity ∧ r.polarity ≤ 10 ∧ r.date ≤ 99

instance record_wf.dec (r : MentionRecord) : Decidable (record_wf r) := by
  unfold record_wf; infer_instance

theorem digit_char_not_special (n : Nat) :
    ¬digit_char n = '"' ∧ ¬digit_char n = '\n' := by
  rcases n with _|_|_|_|_|_|_|_|_|_|n <;> exact ⟨by simp [digit_char], by simp [digit_char]⟩

theorem render_polarity_wf (p : Int) :
    ∀ c ∈ render_polarity p, ¬c = '"' ∧ ¬c = '\n' := by
  intro c hc
  unfold render_polarity at hc
  rcases List.mem_append.mp hc with h | h
  · rcases Classical.em (p < 0) with hp | hp
    · rw [if_pos hp] at h
      simp only [List.mem_singleton] at h
      subst h
      exact ⟨by decide, by decide⟩
    · rw [if_neg hp] at h
      cases h
  · simp only [List.mem_cons, List.mem_singleton] at h
    rcases h with h | h | h
    · subst h; exact digit_char_not_special _
    · subst h; exact ⟨by decide, by decide⟩
    · rcases h with h | h
      · subst h; exact digit_char_not_special _
      · cases h
  
theorem render_date_wf (d : Nat) :
    ∀ c ∈ render_date d, ¬c = '"' ∧ ¬c = '\n' := by
  intro c hc
  unfold render_date at hc
  simp only [List.mem_cons, List.mem_singleton] at hc
  rcases hc with h|h|h|h|h|h|h|h|hc
  · subst h; exact ⟨by decide, by decide⟩
  · subst h; exact ⟨by decide, by decide⟩
  · subst h; exact ⟨by decide, by decide⟩
  · subst h; exact ⟨by decide, by decide⟩
  · subst h; exact ⟨by decide, by decide⟩
  · subst h; exact ⟨by decide, by decide⟩
  · subst h; exact ⟨by decide, by decide⟩
  · subst h; exact ⟨by decide, by decide⟩
  · rcases hc with h | h
    · subst h; exact digit_char_not_special _
    · rcases h with h | h
      · subst h; exact digit_char_not_special _
      · cases h

theorem fields_of_wf (r : MentionRecord) (h : record_wf r) :
    ∀ f ∈ fields_of r, ∀ c ∈ f, ¬c = '"' ∧ ¬c = '\n' := by
  intro f hf
  unfold fields_of at hf
  simp only [List.mem_cons, List.mem_singleton] at hf
  obtain ⟨h1, h2, h3, h4, h5, h6, _, _, _⟩ := h
  rcases hf with h|h|h|h|h|h|h|hf
  · subst h; exact h1
  · subst h; exact h2
  · subst h; exact h3
  · subst h; exact h4
  · subst h; exact h5
  · subst h; exact h6
  · subst h; exact render_polarity_wf r.polarity
  · rcases hf with h | h
    · subst h; exact render_date_wf r.date
    · cases h

/-! ### Correctness of the row splitter on rendered rows -/

theorem split_unq_append (f rest acc : List Char)
    (hf : ∀ c ∈ f, ¬c = ',' ∧ ¬c = '"') :
    split_unq (f ++ rest) acc = split_unq rest (f.reverse ++ acc) := by
  induction f generalizing acc with
  | nil => simp
  | cons c f ih =>
      have hc := hf c (List.mem_cons_self c f)
      rw [List.cons_append]
      simp only [split_unq]
      rw [if_neg hc.1, if_neg hc.2,
        ih (c :: acc) (fun d hd => hf d (List.mem_cons_of_mem c hd))]
      simp

theorem split_q_append (f rest acc : List Char)
    (hf : ∀ c ∈ f, ¬c = '"') (hrest : ∀ r', rest ≠ '"' :: r') :
    split_q (f ++ '"' :: rest) acc = split_unq rest (f.reverse ++ acc) := by
  induction f generalizing acc with
  | nil =>
      rw [List.nil_append]
      cases rest with
      | nil =>
          rw [split_q.eq_def]
          simp
      | cons c2 r2 =>
          have hc2 : ¬c2 = '"' := fun h => hrest r2 (by rw [h])
          rw [split_q.eq_def]
          simp [hc2]
  | cons c f ih =>
      have hc := hf c (List.mem_cons_self c f)
      rw [List.cons_append, split_q.eq_def]
      simp only [hc, if_false]
      rw [ih (c :: acc) (fun d hd => hf d (List.mem_cons_of_mem c hd))]
      simp

theorem escape_field_id (f : List Char) (hf : ∀ c ∈ f, ¬c = '"') :
    escape_field f = f := by
  induction f with
  | nil => rfl
  | cons c f ih =>
      have hc := hf c (List.mem_cons_self c f)
      have ih' := ih (fun d hd => hf d (List.mem_cons_of_mem c hd))
      simp only [escape_field, List.flatMap_cons] at *
      rw [if_neg hc, ih']
      simp

theorem no_comma_of_not_needs_quote (f : List Char) (h : needs_quote f = false) :
    ∀ c ∈ f, ¬c = ',' ∧ ¬c = '"' := by
  intro c hc
  unfold needs_quote at h
  simp only [Bool.or_eq_false_iff] at h
  have h1 : ',' ∉ f := by simpa using h.1.1
  have h2 : '"' ∉ f := by simpa using h.1.2
  exact ⟨fun he => h1 (he ▸ hc), fun he => h2 (he ▸ hc)⟩

theorem split_field_step (f rest acc : List Char)
    (hf : ∀ c ∈ f, ¬c = '"' ∧ ¬c = '\n')
    (hrest : rest = [] ∨ ∃ r', rest = ',' :: r') :
    split_unq (render_field f ++ rest) acc = split_unq rest (f.reverse ++ acc) := by
  have hrest' : ∀ r', rest ≠ '"' :: r' := by
    rcases hrest with h | ⟨r', h⟩ <;> subst h <;> intro r'' h' <;> simp at h'
  unfold render_field
  cases hq : needs_quote f with
  | false =>
      rw [if_neg (by simp)]
      exact split_unq_append f rest acc (no_comma_of_not_needs_quote f hq)
  | true =>
      rw [if_pos rfl]
      have hnq : ∀ c ∈ f, ¬c = '"' := fun c hc => (hf c hc).1
      rw [escape_field_id f hnq]
      have hshape : (('"' :: f ++ ['"']) ++ rest) = '"' :: (f ++ '"' :: rest) := by
        simp
      rw [hshape, split_unq]
      rw [if_neg (by decide : ¬('"' : Char) = ','), if_pos rfl]
      exact split_q_append f rest acc hnq hrest'

theorem split_row (f : List Char) (fs : List (List Char)) (acc : List Char)
    (hwf : ∀ g ∈ f :: fs, ∀ c ∈ g, ¬c = '"' ∧ ¬c = '\n') :
    split_unq (render_row (f :: fs)) acc = (acc.reverse ++ f) :: fs := by
  induction fs generalizing f acc with
  | nil =>
      have h1 : render_row [f] = render_field f ++ [] := by
        simp [render_row, join_comma]
      rw [h1, split_field_step f [] acc (hwf f (List.mem_cons_self f []))
        (Or.inl rfl)]
      simp [split_unq]
  | cons g fs ih =>
      have h1 : render_row (f :: g :: fs) =
          render_field f ++ ',' :: render_row (g :: fs) := rfl
      rw [h1, split_field_step f _ acc
        (hwf f (List.mem_cons_self f (g :: fs))) (Or.inr ⟨_, rfl⟩)]
      rw [split_unq, if_pos rfl]
      rw [ih g [] (fun x hx => hwf x (List.mem_cons_of_mem f hx))]
      simp

theorem parse_row_render (fs : List (List Char)) (f0 : List Char)
    (rest0 : List (List Char)) (hshape : fs = f0 :: rest0)
    (hwf : ∀ g ∈ fs, ∀ c ∈ g, ¬c = '"' ∧ ¬c = '\n') :
    parse_row (render_row fs) = fs := by
  subst hshape
  unfold parse_row
  rw [split_row f0 rest0 [] hwf]
  rfl

theorem parse_polarity_render (p : Int) (h1 : -10 ≤ p) (h2 : p ≤ 10) :
    parse_polarity (render_polarity p) = some p := by
  interval_cases p <;> rfl

theorem parse_date_render (d : Nat) (h : d ≤ 99) :
    parse_date (render_date d) = some d := by
  have hall : ∀ m, m < 100 → parse_date (render_date m) = some m := by decide
  exact hall d (by omega)

theorem record_of_fields_of (r : MentionRecord) (h : record_wf r) :
    record_of_fields (fields_of r) = some r := by
  obtain ⟨_, _, _, _, _, _, hp1, hp2, hd⟩ := h
  show (do
    let p ← parse_polarity (render_polarity r.polarity)
    let dd ← parse_date (render_date r.date)
    some (⟨String.mk r.text.data, String.mk r.sentiment.data,
      String.mk r.emotion.data, String.mk r.source.data,
      String.mk r.platform.data, String.mk r.search_term.data,
      p, dd⟩ : MentionRecord)) = some r
  rw [parse_polarity_render r.polarity hp1 hp2, parse_date_render r.date hd]
  rfl

theorem split_nl_aux_append (l rest acc : List Char)
    (hl : ∀ c ∈ l, ¬c = '\n') :
    split_nl_aux (l ++ '\n' :: rest) acc =
      (acc.reverse ++ l) :: split_nl_aux rest [] := by
  induction l generalizing acc with
  | nil =>
      rw [List.nil_append]
      simp [split_nl_aux]
  | cons c l ih =>
      have hc := hl c (List.mem_cons_self c l)
      rw [List.cons_append]
      simp only [split_nl_aux]
      rw [if_neg hc, ih (c :: acc) (fun d hd => hl d (List.mem_cons_of_mem c hd))]
      simp

theorem split_lines (lines : List (List Char))
    (h : ∀ l ∈ lines, ∀ c ∈ l, ¬c = '\n') :
    split_nl_aux (lines.flatMap (fun l => l ++ ['\n'])) [] = lines ++ [[]] := by
  induction lines with
  | nil => rfl
  | cons l ls ih =>
      have hshape : (l :: ls).flatMap (fun l => l ++ ['\n']) =
          l ++ '\n' :: ls.flatMap (fun l => l ++ ['\n']) := by simp
      rw [hshape, split_nl_aux_append l _ [] (h l (List.mem_cons_self l ls)),
        ih (fun x hx => h x (List.mem_cons_of_mem l hx))]
      simp

theorem mem_join_comma {c : Char} {fs : List (List Char)}
    (h : c ∈ join_comma fs) : (∃ f ∈ fs, c ∈ f) ∨ c = ',' := by
  induction fs with
  | nil => cases h
  | cons f fs ih =>
      cases fs with
      | nil => exact Or.inl ⟨f, List.mem_cons_self f [], h⟩
      | cons g gs =>
          have h' : c ∈ f ++ ',' :: join_comma (g :: gs) := h
          rcases List.mem_append.mp h' with h1 | h1
          · exact Or.inl ⟨f, List.mem_cons_self f (g :: gs), h1⟩
          · rcases List.mem_cons.mp h1 with h2 | h2
            · exact Or.inr h2
            · rcases ih h2 with ⟨f', hf', hc'⟩ | h3
              · exact Or.inl ⟨f', List.mem_cons_of_mem f hf', hc'⟩
              · exact Or.inr h3

theorem mem_render_field {c : Char} {f : List Char} (h : c ∈ render_field f) :
    c ∈ f ∨ c = '"' := by
  unfold render_field at h
  split at h
  · rcases List.mem_cons.mp h with h1 | h1
    · exact Or.inr h1
    · rcases List.mem_append.mp h1 with h2 | h2
      · rcases List.mem_flatMap.mp h2 with ⟨a, ha, hc⟩
        by_cases ha' : a = '"'
        · rw [if_pos ha'] at hc
          simp only [List.mem_cons, List.not_mem_nil, or_false] at hc
          rcases hc with hc | hc <;> exact Or.inr hc
        · rw [if_neg ha'] at hc
          simp only [List.mem_singleton] at hc
          subst hc
          exact Or.inl ha
      · simp only [List.mem_singleton] at h2
        exact Or.inr h2
  · exact Or.inl h

theorem render_row_no_nl (fs : List (List Char))
    (h : ∀ f ∈ fs, ∀ c ∈ f, ¬c = '\n') : ∀ c ∈ render_row fs, ¬c = '\n' := by
  intro c hc
  unfold render_row at hc
  rcases mem_join_comma hc with ⟨rf, hrf, hcrf⟩ | hcomma
  · rcases List.mem_map.mp hrf with ⟨f, hf, rfl⟩
    rcases mem_render_field hcrf with h1 | h1
    · exact h f hf c h1
    · subst h1
      decide
  · subst hcomma
    decide

theorem csv_header_no_nl : ∀ c ∈ csv_header, ¬c = '\n' := by decide

theorem mapM_record_rows (records : List MentionRecord)
    (h : ∀ r ∈ records, record_wf r) :
    (records.map (fun r => render_row (fields_of r))).mapM
      (fun line => record_of_fields (parse_row line)) = some records := by
  induction records with
  | nil => rfl
  | cons r rs ih =>
      have hr := h r (List.mem_cons_self r rs)
      have hrow : parse_row (render_row (fields_of r)) = fields_of r :=
        parse_row_render (fields_of r) r.text.data
          [r.sentiment.data, r.emotion.data, r.source.data, r.platform.data,
           r.search_term.data, render_polarity r.polarity, render_date r.date]
          rfl (fields_of_wf r hr)
      simp only [List.map_cons, List.mapM_cons, hrow, record_of_fields_of r hr,
        ih (fun x hx => h x (List.mem_cons_of_mem r hx))]
      rfl

theorem csv_round_trip_wf (records : List MentionRecord)
    (h : ∀ r ∈ records, record_wf r) :
    parse_csv (to_csv records) = some records := by
  have hlines : ∀ l ∈ csv_header ::
      records.map (fun r => render_row (fields_of r)), ∀ c ∈ l, ¬c = '\n' := by
    intro l hl
    rcases List.mem_cons.mp hl with h1 | h1
    · subst h1
      exact csv_header_no_nl
    · rcases List.mem_map.mp h1 with ⟨r, hr, rfl⟩
      exact render_row_no_nl (fields_of r)
        (fun f hf c hc => (fields_of_wf r (h r hr) f hf c hc).2)
  have hsplit : split_nl_aux (to_csv records) [] =
      csv_header ::
        (records.map (fun r => render_row (fields_of r)) ++ [([] : List Char)]) := by
    unfold to_csv
    rw [split_lines _ hlines, List.cons_append]
  unfold parse_csv
  rw [hsplit]
  dsimp only
  rw [if_pos rfl, if_pos (by rw [List.getLast?_concat]), List.dropLast_concat]
  exact mapM_record_rows records h

/-- C9: exporting the filtered records to CSV (all MentionRecord columns,
header row, one comma-separated line per record) and parsing the CSV back
yields the filtered records again, field for field and in order. -/
theorem csv_round_trip :
    ∀ (date_range : List Nat) (sources terms : List String),
      parse_csv (to_csv (filter_records load_data date_range sources terms)) =
        some (filter_records load_data date_range sources terms) := by
  intro date_range sources terms
  have hwf : ∀ r ∈ load_data, record_wf r := by decide
  exact csv_round_trip_wf _
    (fun r hr => hwf r (mem_of_mem_filter_records hr))
